import Mathlib

/-!
Verification of the LoRa device-to-device communication engine.

Shallow embedding of the protocol logic of `pi_responder.py` and
`lora_test.py`: the mode scheduler (beacon/echo flags and their Flask
handlers), the ping statistics accumulator, the chunked file-transfer
sender and receiver, the line-mode send handler, the register-mode packet
writer, and the spectrum-scan loop.  Python dictionaries keyed by chunk
index are modelled as association lists where the newest binding shadows
older ones (exactly the last-write-wins behaviour of dict assignment),
byte strings as `List Nat`, module response lines as `List Char`, and
the MD5 digest as an arbitrary function parameter (instantiated with an
injective function where collision-freedom matters).  Frequency values
are carried as exact rationals, but the spectrum loop's float increment
`freq += step` is kept abstract as an arbitrary accumulator update,
because IEEE-754 rounding decides whether that update ever advances.
-/

namespace D2D

/-! ## ModeScheduler: the beacon/echo global flags of pi_responder.py

`lora_beacon_active`, `lora_echo_active` and `beacon_count` are module
globals mutated only by the four Flask handlers below (the background
loops read the flags but never write them, apart from `beacon_count`
ticks which do not touch the flags).  Each handler is embedded as a
function returning the list of intermediate states the globals pass
through (one entry per assignment; the `time.sleep(1)` grace period
falls between the two assignments of a start handler) together with the
JSON reply. -/

structure ModeState where
  beacon : Bool
  echo : Bool
  count : Nat
deriving DecidableEq, Repr

structure Reply where
  success : Bool
  message : String
deriving DecidableEq, Repr

/-- Initial state: both flags false, counter zero (module load). -/
def initMode : ModeState := ⟨false, false, 0⟩

/-- `lora_beacon_start` (pi_responder.py:344-365): early no-op reply when
already beaconing; otherwise clear the echo flag, sleep one second, then
set the beacon flag and reset the counter. -/
def lora_beacon_start (s : ModeState) : List ModeState × Reply :=
  if s.beacon then ([], ⟨true, "Already running"⟩)
  else
    ([{ s with echo := false },
      { s with echo := false, beacon := true, count := 0 }],
     ⟨true, "Beacon started"⟩)

/-- `lora_beacon_stop` (pi_responder.py:368-373). -/
def lora_beacon_stop (s : ModeState) : List ModeState × Reply :=
  ([{ s with beacon := false }], ⟨true, "Beacon stopping..."⟩)

/-- `lora_echo_start` (pi_responder.py:376-392): symmetric to beacon start;
the counter is untouched. -/
def lora_echo_start (s : ModeState) : List ModeState × Reply :=
  if s.echo then ([], ⟨true, "Already running"⟩)
  else
    ([{ s with beacon := false },
      { s with beacon := false, echo := true }],
     ⟨true, "Echo mode started"⟩)

/-- `lora_echo_stop` (pi_responder.py:395-400). -/
def lora_echo_stop (s : ModeState) : List ModeState × Reply :=
  ([{ s with echo := false }], ⟨true, "Echo mode stopping..."⟩)

/-- `/lora/mode` status query (pi_responder.py:403-410): reports
(beacon_active, echo_active, beacons_sent). -/
def lora_mode_status (s : ModeState) : Bool × Bool × Nat :=
  (s.beacon, s.echo, s.count)

inductive ModeOp where
  | startB
  | stopB
  | startE
  | stopE

/-- The states the globals pass through while one handler runs. -/
def opTrace : ModeOp → ModeState → List ModeState
  | .startB, s => (lora_beacon_start s).1
  | .stopB, s => (lora_beacon_stop s).1
  | .startE, s => (lora_echo_start s).1
  | .stopE, s => (lora_echo_stop s).1

/-- Final state after a handler (last intermediate state, or the input
state when the handler returned early without touching the globals). -/
def finalOf (s : ModeState) (tr : List ModeState) : ModeState :=
  tr.getLastD s

/-- Every state the globals can be in at any instant, starting from the
idle initial state: every intermediate state of every handler run is
reachable (so the invariant is checked even mid-handler, during the
grace period). -/
inductive ReachableMode : ModeState → Prop
  | init : ReachableMode initMode
  | step (s s' : ModeState) (op : ModeOp) :
      ReachableMode s → s' ∈ opTrace op s → ReachableMode s'

/-- C1: over start/stop of beacon and echo, every state reachable from
Idle (including every intermediate state inside a handler) has at most
one of the two mode flags set, so `/lora/mode` never reports both
active; moreover a start handler on a not-yet-active mode first clears
the other mode's flag (then sleeps the grace period) and only afterwards
sets its own flag. -/
theorem mode_mutual_exclusion :
    (∀ s, ReachableMode s →
      ¬((lora_mode_status s).1 = true ∧ (lora_mode_status s).2.1 = true)) ∧
    (∀ s, s.beacon = false →
      (lora_beacon_start s).1 =
        [{ s with echo := false },
         { s with echo := false, beacon := true, count := 0 }]) ∧
    (∀ s, s.echo = false →
      (lora_echo_start s).1 =
        [{ s with beacon := false },
         { s with beacon := false, echo := true }]) := by
  refine ⟨?_, ?_, ?_⟩
  · intro s h
    induction h with
    | init => simp [initMode, lora_mode_status]
    | step s s' op _ hmem _ =>
      cases op with
      | startB =>
        simp only [opTrace, lora_beacon_start] at hmem
        split at hmem
        · simp at hmem
        · simp only [List.mem_cons, List.not_mem_nil, or_false] at hmem
          rcases hmem with rfl | rfl <;> simp [lora_mode_status]
      | stopB =>
        simp only [opTrace, lora_beacon_stop, List.mem_cons,
          List.not_mem_nil, or_false] at hmem
        subst hmem
        simp [lora_mode_status]
      | startE =>
        simp only [opTrace, lora_echo_start] at hmem
        split at hmem
        · simp at hmem
        · simp only [List.mem_cons, List.not_mem_nil, or_false] at hmem
          rcases hmem with rfl | rfl <;> simp [lora_mode_status]
      | stopE =>
        simp only [opTrace, lora_echo_stop, List.mem_cons,
          List.not_mem_nil, or_false] at hmem
        subst hmem
        simp [lora_mode_status]
  · intro s hs
    simp [lora_beacon_start, hs]
  · intro s hs
    simp [lora_echo_start, hs]

/-- Witness for C1 at a concrete reachable state: the state reached by
running `lora_beacon_start` from the initial idle state. -/
theorem mode_mutual_exclusion_witness :
    ¬((lora_mode_status ⟨true, false, 0⟩).1 = true ∧
      (lora_mode_status ⟨true, false, 0⟩).2.1 = true) :=
  mode_mutual_exclusion.1 ⟨true, false, 0⟩
    (ReachableMode.step initMode ⟨true, false, 0⟩ .startB ReachableMode.init
      (by decide))

/-- C8: starting an already-active mode returns the success reply
"Already running" and passes through no intermediate state at all, so
both flags and the beacon counter are left unchanged. -/
theorem start_active_mode_noop :
    (∀ s, s.beacon = true →
      lora_beacon_start s = ([], ⟨true, "Already running"⟩) ∧
      finalOf s (lora_beacon_start s).1 = s) ∧
    (∀ s, s.echo = true →
      lora_echo_start s = ([], ⟨true, "Already running"⟩) ∧
      finalOf s (lora_echo_start s).1 = s) := by
  constructor
  · intro s hs
    simp [lora_beacon_start, hs, finalOf]
  · intro s hs
    simp [lora_echo_start, hs, finalOf]

/-- Witness for C8 at concrete states with a nonzero counter. -/
theorem start_active_mode_noop_witness :
    lora_beacon_start ⟨true, false, 5⟩ = ([], ⟨true, "Already running"⟩) ∧
    lora_echo_start ⟨false, true, 7⟩ = ([], ⟨true, "Already running"⟩) :=
  ⟨(start_active_mode_noop.1 ⟨true, false, 5⟩ rfl).1,
   (start_active_mode_noop.2 ⟨false, true, 7⟩ rfl).1⟩

/-! ## FileTransferProtocol (lora_test.py, class LoRaFileTransfer)

Frames are the JSON packets exchanged on the radio, with the base64/JSON
codec abstracted away: a `fileData` frame carries the decoded chunk
bytes.  The digest (`hashlib.md5(...).hexdigest()`) is a parameter
`digest : List Nat → List Nat`. -/

structure FileInfoMsg where
  filename : String
  size : Nat
  chunks : Nat
  hash : List Nat
deriving DecidableEq, Repr

inductive Frame where
  | fileInfo (info : FileInfoMsg)
  | fileData (chunk total : Nat) (data : List Nat)
  | fileComplete (filename : String) (hash : List Nat)
  | ack (sender : String)
  | other
deriving DecidableEq, Repr

def Frame.isFileInfo : Frame → Bool
  | .fileInfo _ => true
  | _ => false

/-- `num_chunks = (filesize + self.chunk_size - 1) // self.chunk_size`
(lora_test.py:493). -/
def num_chunks (filesize chunk_size : Nat) : Nat :=
  (filesize + chunk_size - 1) / chunk_size

/-- The i-th chunk the sender reads: `f.read(chunk_size)` on the i-th
loop iteration reads bytes `i*chunk_size .. i*chunk_size+chunk_size` of
the file (lora_test.py:521-523). -/
def file_chunk (data : List Nat) (cs i : Nat) : List Nat :=
  (data.drop (i * cs)).take cs

/-- `send_file` (lora_test.py:475-553), as the sequence of frames it
transmits on the happy path (ack received): one FILE_INFO, the chunks in
increasing index order, then one FILE_COMPLETE carrying the digest of
the whole file. -/
def send_file (digest : List Nat → List Nat) (filename : String)
    (data : List Nat) (cs : Nat) : List Frame :=
  Frame.fileInfo ⟨filename, data.length, num_chunks data.length cs, digest data⟩
    :: ((List.range (num_chunks data.length cs)).map fun i =>
          Frame.fileData i (num_chunks data.length cs) (file_chunk data cs i))
    ++ [Frame.fileComplete filename (digest data)]

/-- Receiver session state: `file_info` and the `chunks` dict
(lora_test.py:563-564).  The dict is an association list where the most
recent binding for a key shadows older ones, exactly dict assignment. -/
structure RecvState where
  file_info : Option FileInfoMsg
  chunks : List (Nat × List Nat)
deriving DecidableEq, Repr

/-- `chunks[chunk_num] = chunk_data` (lora_test.py:590). -/
def insertChunk (m : List (Nat × List Nat)) (k : Nat) (v : List Nat) :
    List (Nat × List Nat) :=
  (k, v) :: m

/-- `chunks[i]` / `i in chunks`: the newest binding for `i`, if any. -/
def lookupChunk (m : List (Nat × List Nat)) (k : Nat) : Option (List Nat) :=
  (m.find? fun p => p.1 == k).map Prod.snd

/-- Reassembly (lora_test.py:601-604): for `i in range(chunks)`, write
`chunks[i]` when present, write nothing for a missing index. -/
def assembleFile (m : List (Nat × List Nat)) (total : Nat) : List Nat :=
  ((List.range total).filterMap (lookupChunk m)).flatten

/-- Observable effects of the receive loop. -/
inductive RxEvent where
  | sentAck
  | wrote (bytes : List Nat)
  | hashMatch
  | hashMismatch
deriving DecidableEq, Repr

/-- `receive_file` (lora_test.py:555-619) over a sequence of decoded
frames: FILE_INFO resets the session and acks; FILE_DATA is stored only
once a FILE_INFO has been seen; FILE_COMPLETE (with a session open)
assembles, writes the file, compares digests, and breaks out of the
loop; everything else is ignored and the loop keeps listening. -/
def receive_file (digest : List Nat → List Nat) :
    RecvState → List Frame → RecvState × List RxEvent
  | s, [] => (s, [])
  | _, .fileInfo info :: rest =>
      let r := receive_file digest ⟨some info, []⟩ rest
      (r.1, .sentAck :: r.2)
  | s, .fileData c _ d :: rest =>
      match s.file_info with
      | some _ => receive_file digest ⟨s.file_info, insertChunk s.chunks c d⟩ rest
      | none => receive_file digest s rest
  | s, .fileComplete _ h :: rest =>
      match s.file_info with
      | some info =>
          (s, [.wrote (assembleFile s.chunks info.chunks),
               if digest (assembleFile s.chunks info.chunks) = h then
                 .hashMatch
               else .hashMismatch])
      | none => receive_file digest s rest
  | s, .ack _ :: rest => receive_file digest s rest
  | s, .other :: rest => receive_file digest s rest

/-! ### Chunking lemmas -/

theorem join_chunks_take (data : List Nat) (cs : Nat) (n : Nat) :
    ((List.range n).map fun i => file_chunk data cs i).flatten =
      data.take (n * cs) := by
  induction n with
  | zero => simp
  | succ n ih =>
    rw [List.range_succ, List.map_append, List.flatten_append, ih]
    simp only [List.map_cons, List.map_nil, List.flatten_cons, List.flatten_nil,
      List.append_nil, file_chunk]
    rw [Nat.succ_mul, List.take_add]

theorem num_chunks_mul_ge (N cs : Nat) (h : 0 < cs) :
    N ≤ num_chunks N cs * cs := by
  unfold num_chunks
  have h1 := Nat.div_add_mod (N + cs - 1) cs
  have h2 : (N + cs - 1) % cs < cs := Nat.mod_lt _ h
  have h3 : cs * ((N + cs - 1) / cs) = (N + cs - 1) / cs * cs :=
    Nat.mul_comm _ _
  omega

/-- Concatenating all the sender's chunks reproduces the file. -/
theorem join_chunks (data : List Nat) (cs : Nat) (h : 0 < cs) :
    ((List.range (num_chunks data.length cs)).map fun i =>
        file_chunk data cs i).flatten = data := by
  rw [join_chunks_take]
  exact List.take_of_length_le (num_chunks_mul_ge data.length cs h)

/-- C7: sending a 1000-byte file with chunk_size 200 emits FILE_INFO,
then exactly five FILE_DATA frames with chunk indices 0,1,2,3,4 in
strictly increasing order, each carrying total_chunks 5, then exactly
one FILE_COMPLETE whose digest is the digest of the source bytes. -/
theorem send_file_five_chunks (digest : List Nat → List Nat)
    (filename : String) (data : List Nat) (h : data.length = 1000) :
    send_file digest filename data 200 =
      [Frame.fileInfo ⟨filename, 1000, 5, digest data⟩,
       Frame.fileData 0 5 (file_chunk data 200 0),
       Frame.fileData 1 5 (file_chunk data 200 1),
       Frame.fileData 2 5 (file_chunk data 200 2),
       Frame.fileData 3 5 (file_chunk data 200 3),
       Frame.fileData 4 5 (file_chunk data 200 4),
       Frame.fileComplete filename (digest data)] := by
  have h5 : num_chunks 1000 200 = 5 := rfl
  simp [send_file, h, h5, List.range_succ]

/-- Witness for C7 at a concrete 1000-byte file. -/
theorem send_file_five_chunks_witness :
    send_file id "f" (List.replicate 1000 0) 200 =
      [Frame.fileInfo ⟨"f", 1000, 5, id (List.replicate 1000 0)⟩,
       Frame.fileData 0 5 (file_chunk (List.replicate 1000 0) 200 0),
       Frame.fileData 1 5 (file_chunk (List.replicate 1000 0) 200 1),
       Frame.fileData 2 5 (file_chunk (List.replicate 1000 0) 200 2),
       Frame.fileData 3 5 (file_chunk (List.replicate 1000 0) 200 3),
       Frame.fileData 4 5 (file_chunk (List.replicate 1000 0) 200 4),
       Frame.fileComplete "f" (id (List.replicate 1000 0))] :=
  send_file_five_chunks id "f" (List.replicate 1000 0)
    (by rw [List.length_replicate])

/-! ### Receiver lemmas -/

/-- The chunk dict resolves an index to the payload of the last
`FILE_DATA` delivery carrying that index (dict assignment is
last-write-wins). -/
def lastWrite (ds : List (Nat × List Nat)) (k : Nat) : Option (List Nat) :=
  (ds.reverse.find? fun p => p.1 == k).map Prod.snd

theorem receive_data_frames (digest : List Nat → List Nat)
    (ds : List (Nat × List Nat)) (info : FileInfoMsg) (t : Nat) :
    ∀ (cm : List (Nat × List Nat)) (rest : List Frame),
      receive_file digest ⟨some info, cm⟩
          ((ds.map fun p => Frame.fileData p.1 t p.2) ++ rest) =
        receive_file digest
          ⟨some info, ds.foldl (fun m p => insertChunk m p.1 p.2) cm⟩ rest := by
  induction ds with
  | nil => intro cm rest; rfl
  | cons p ds ih =>
    intro cm rest
    simp only [List.map_cons, List.cons_append, List.foldl_cons]
    rw [receive_file]
    exact ih (insertChunk cm p.1 p.2) rest

theorem foldl_insertChunk (ds cm : List (Nat × List Nat)) :
    ds.foldl (fun m p => insertChunk m p.1 p.2) cm = ds.reverse ++ cm := by
  induction ds generalizing cm with
  | nil => simp
  | cons p ds ih =>
    simp only [List.foldl_cons, List.reverse_cons, List.append_assoc]
    rw [ih]
    rfl

theorem lookupChunk_reverse (ds : List (Nat × List Nat)) (k : Nat) :
    lookupChunk ds.reverse k = lastWrite ds k := rfl

theorem filterMap_eq_map_of_lookup {α β : Type} (g : α → Option β)
    (f : α → β) (l : List α) (h : ∀ i ∈ l, g i = some (f i)) :
    l.filterMap g = l.map f := by
  induction l with
  | nil => rfl
  | cons a l ih =>
    rw [List.filterMap_cons, h a (List.mem_cons_self a l), List.map_cons,
      ih fun i hi => h i (List.mem_cons_of_mem a hi)]

/-- If every stored chunk is correct, the reassembled output is no longer
than the full file restricted to the scanned indices. -/
theorem assembled_length_le (cmap : List (Nat × List Nat))
    (original : List Nat) (cs : Nat) (l : List Nat)
    (hg : ∀ i ∈ l, lookupChunk cmap i = none ∨
        lookupChunk cmap i = some (file_chunk original cs i)) :
    ((l.filterMap (lookupChunk cmap)).flatten).length ≤
      ((l.map fun i => file_chunk original cs i).flatten).length := by
  induction l with
  | nil => simp
  | cons a l ih =>
    have ha := hg a (List.mem_cons_self a l)
    have ih' := ih fun i hi => hg i (List.mem_cons_of_mem a hi)
    rcases ha with ha | ha <;>
      simp only [List.filterMap_cons, ha, List.map_cons, List.flatten_cons,
        List.length_append] <;> omega

/-- A missing index removes that chunk's bytes from the reassembled
output. -/
theorem assembled_length_missing (cmap : List (Nat × List Nat))
    (original : List Nat) (cs : Nat) (j : Nat) (l : List Nat)
    (hg : ∀ i ∈ l, lookupChunk cmap i = none ∨
        lookupChunk cmap i = some (file_chunk original cs i))
    (hj : j ∈ l) (hmiss : lookupChunk cmap j = none) :
    ((l.filterMap (lookupChunk cmap)).flatten).length +
        (file_chunk original cs j).length ≤
      ((l.map fun i => file_chunk original cs i).flatten).length := by
  induction l with
  | nil => simp at hj
  | cons a l ih =>
    have ih' := fun hj' =>
      ih (fun i hi => hg i (List.mem_cons_of_mem a hi)) hj'
    have hle := assembled_length_le cmap original cs l
      fun i hi => hg i (List.mem_cons_of_mem a hi)
    rcases List.mem_cons.mp hj with rfl | hj'
    · simp only [List.filterMap_cons, hmiss, List.map_cons,
        List.flatten_cons, List.length_append]
      omega
    · have ha := hg a (List.mem_cons_self a l)
      rcases ha with ha | ha <;>
        simp only [List.filterMap_cons, ha, List.map_cons, List.flatten_cons,
          List.length_append] <;>
        (have hrec := ih' hj'; omega)

/-- Every chunk of a nonempty file is nonempty. -/
theorem file_chunk_length_pos (original : List Nat) (cs j : Nat)
    (hcs : 0 < cs) (_hne : 0 < original.length)
    (hj : j < num_chunks original.length cs) :
    0 < (file_chunk original cs j).length := by
  have hjN : j * cs < original.length := by
    unfold num_chunks at hj
    have hq := Nat.div_add_mod (original.length + cs - 1) cs
    have hr : (original.length + cs - 1) % cs < cs := Nat.mod_lt _ hcs
    have hmul : (j + 1) * cs ≤ ((original.length + cs - 1) / cs) * cs :=
      Nat.mul_le_mul_right cs hj
    have hsm : (j + 1) * cs = j * cs + cs := Nat.succ_mul j cs
    have hco : cs * ((original.length + cs - 1) / cs) =
        ((original.length + cs - 1) / cs) * cs := Nat.mul_comm _ _
    omega
  simp only [file_chunk, List.length_take, List.length_drop]
  omega

/-- C2: if the announced digest is that of the complete original bytes,
every stored chunk is a true sender chunk, and at least one chunk index
is absent when FILE_COMPLETE arrives, then the receiver reports a hash
mismatch (never a silent match): the gap is detected and flagged. -/
theorem receive_missing_chunk_mismatch (digest : List Nat → List Nat)
    (hinj : ∀ a b, digest a = digest b → a = b)
    (original : List Nat) (cs : Nat) (hcs : 0 < cs)
    (hne : 0 < original.length) (info : FileInfoMsg)
    (htot : info.chunks = num_chunks original.length cs)
    (cmap : List (Nat × List Nat)) (j : Nat)
    (hj : j < num_chunks original.length cs)
    (hmiss : lookupChunk cmap j = none)
    (hgood : ∀ i < num_chunks original.length cs,
      lookupChunk cmap i = none ∨
        lookupChunk cmap i = some (file_chunk original cs i))
    (name : String) :
    receive_file digest ⟨some info, cmap⟩
        [Frame.fileComplete name (digest original)] =
      (⟨some info, cmap⟩,
       [RxEvent.wrote (assembleFile cmap info.chunks),
        RxEvent.hashMismatch]) := by
  have hg : ∀ i ∈ List.range (num_chunks original.length cs),
      lookupChunk cmap i = none ∨
        lookupChunk cmap i = some (file_chunk original cs i) :=
    fun i hi => hgood i (List.mem_range.mp hi)
  have hlt : (assembleFile cmap info.chunks).length < original.length := by
    have h1 := assembled_length_missing cmap original cs j
      (List.range (num_chunks original.length cs)) hg
      (List.mem_range.mpr hj) hmiss
    have h2 := file_chunk_length_pos original cs j hcs hne hj
    have h3 := join_chunks original cs hcs
    rw [htot]
    unfold assembleFile
    have h4 : ((List.range (num_chunks original.length cs)).map fun i =>
        file_chunk original cs i).flatten.length = original.length := by
      rw [h3]
    omega
  have hneq : digest (assembleFile cmap info.chunks) ≠ digest original := by
    intro heq
    have := hinj _ _ heq
    rw [this] at hlt
    omega
  rw [receive_file]
  simp only [hneq, if_false, ite_false, if_neg hneq]

/-- Witness for C2: a three-byte file in three one-byte chunks, the
middle chunk missing; the identity digest is injective. -/
theorem receive_missing_chunk_mismatch_witness :
    receive_file id ⟨some ⟨"f", 3, 3, [1, 2, 3]⟩, [(0, [1]), (2, [3])]⟩
        [Frame.fileComplete "f" (id [1, 2, 3])] =
      (⟨some ⟨"f", 3, 3, [1, 2, 3]⟩, [(0, [1]), (2, [3])]⟩,
       [RxEvent.wrote (assembleFile [(0, [1]), (2, [3])] 3),
        RxEvent.hashMismatch]) :=
  receive_missing_chunk_mismatch id (fun _ _ h => h) [1, 2, 3] 1
    (by decide) (by decide) ⟨"f", 3, 3, [1, 2, 3]⟩ rfl
    [(0, [1]), (2, [3])] 1 (by decide) (by decide) (by decide) "f"

/-- C4: starting from an idle receive session, a FILE_INFO frame followed
by any delivery order of the chunks — duplicates allowed, resolved
last-write-wins — and a FILE_COMPLETE announcing the digest of the
original bytes makes the receiver write exactly the original bytes and
report a digest match. -/
theorem receive_complete_roundtrip (digest : List Nat → List Nat)
    (fname name : String) (original : List Nat) (cs : Nat)
    (hcs : 0 < cs) (_hne : 0 < original.length)
    (ds : List (Nat × List Nat))
    (hcover : ∀ i < num_chunks original.length cs,
      lastWrite ds i = some (file_chunk original cs i)) :
    receive_file digest ⟨none, []⟩
        (Frame.fileInfo
            ⟨fname, original.length, num_chunks original.length cs,
             digest original⟩
          :: ((ds.map fun p =>
                Frame.fileData p.1 (num_chunks original.length cs) p.2)
              ++ [Frame.fileComplete name (digest original)])) =
      (⟨some ⟨fname, original.length, num_chunks original.length cs,
           digest original⟩, ds.reverse⟩,
       [RxEvent.sentAck, RxEvent.wrote original, RxEvent.hashMatch]) := by
  rw [receive_file]
  rw [receive_data_frames, foldl_insertChunk, List.append_nil]
  have hassemble :
      assembleFile ds.reverse (num_chunks original.length cs) = original := by
    unfold assembleFile
    rw [filterMap_eq_map_of_lookup (lookupChunk ds.reverse)
      (fun i => file_chunk original cs i) _
      (fun i hi => by
        rw [lookupChunk_reverse]
        exact hcover i (List.mem_range.mp hi))]
    exact join_chunks original cs hcs
  rw [receive_file]
  simp [hassemble]

/-- Witness for C4: a three-byte file in two chunks, delivered out of
order with a stale duplicate of chunk 0 later overwritten. -/
theorem receive_complete_roundtrip_witness :
    receive_file id ⟨none, []⟩
        (Frame.fileInfo
            ⟨"f", (3 : Nat), num_chunks 3 2, id [5, 6, 7]⟩
          :: (([((0 : Nat), [9, 9]), (1, [7]), (0, [5, 6])].map fun p =>
                Frame.fileData p.1 (num_chunks 3 2) p.2)
              ++ [Frame.fileComplete "g" (id [5, 6, 7])])) =
      (⟨some ⟨"f", 3, num_chunks 3 2, id [5, 6, 7]⟩,
        [((0 : Nat), [9, 9]), (1, [7]), (0, [5, 6])].reverse⟩,
       [RxEvent.sentAck, RxEvent.wrote [5, 6, 7], RxEvent.hashMatch]) :=
  receive_complete_roundtrip id "f" "g" [5, 6, 7] 2 (by decide) (by decide)
    [(0, [9, 9]), (1, [7]), (0, [5, 6])] (by decide)

/-- Once a FILE_INFO has been processed the session stays open: the
`file_info` variable is never reset to `None`. -/
theorem file_info_persists (digest : List Nat → List Nat)
    (frames : List Frame) :
    ∀ (info : FileInfoMsg) (cm : List (Nat × List Nat)),
      (receive_file digest ⟨some info, cm⟩ frames).1.file_info ≠ none := by
  induction frames with
  | nil => intro info cm h; simp [receive_file] at h
  | cons f frames ih =>
    intro info cm
    cases f with
    | fileInfo info' => rw [receive_file]; exact ih info' []
    | fileData c t d => rw [receive_file]; exact ih info _
    | fileComplete n h => rw [receive_file]; simp
    | ack s => rw [receive_file]; exact ih info cm
    | other => rw [receive_file]; exact ih info cm

/-- C10: before any FILE_INFO has been processed the receive loop stores
nothing, writes nothing and emits nothing — FILE_DATA and FILE_COMPLETE
arriving first are silently ignored and the loop keeps listening — and
the invariant "no FILE_INFO seen implies the chunk dict is empty" is
preserved across any sequence of loop iterations. -/
theorem receive_before_fileinfo (digest : List Nat → List Nat) :
    (∀ frames : List Frame, (∀ f ∈ frames, f.isFileInfo = false) →
      receive_file digest ⟨none, []⟩ frames = (⟨none, []⟩, [])) ∧
    (∀ (frames : List Frame) (s : RecvState),
      s.file_info = none → s.chunks = [] →
      (receive_file digest s frames).1.file_info = none →
      (receive_file digest s frames).1.chunks = []) := by
  constructor
  · intro frames hno
    induction frames with
    | nil => rfl
    | cons f frames ih =>
      have hf := hno f (List.mem_cons_self f frames)
      have ih' := ih fun g hg => hno g (List.mem_cons_of_mem f hg)
      cases f with
      | fileInfo info => simp [Frame.isFileInfo] at hf
      | fileData c t d => rw [receive_file]; exact ih'
      | fileComplete n h => rw [receive_file]; exact ih'
      | ack s => rw [receive_file]; exact ih'
      | other => rw [receive_file]; exact ih'
  · intro frames
    induction frames with
    | nil => intro s h1 h2 _; simpa [receive_file] using h2
    | cons f frames ih =>
      intro s h1 h2 hres
      cases f with
      | fileInfo info =>
        rw [receive_file] at hres ⊢
        exact absurd hres (file_info_persists digest frames info [])
      | fileData c t d =>
        rw [receive_file] at hres ⊢
        rw [h1] at hres ⊢
        exact ih s h1 h2 hres
      | fileComplete n h =>
        rw [receive_file] at hres ⊢
        rw [h1] at hres ⊢
        exact ih s h1 h2 hres
      | ack sender =>
        rw [receive_file] at hres ⊢
        exact ih s h1 h2 hres
      | other =>
        rw [receive_file] at hres ⊢
        exact ih s h1 h2 hres

/-- Witness for C10: data, completion and ack frames arriving before any
FILE_INFO leave the session untouched and produce no output. -/
theorem receive_before_fileinfo_witness :
    receive_file id ⟨none, []⟩
        [Frame.fileData 0 1 [2], Frame.fileComplete "f" [],
         Frame.ack "a", Frame.other] = (⟨none, []⟩, []) :=
  (receive_before_fileinfo id).1
    [Frame.fileData 0 1 [2], Frame.fileComplete "f" [],
     Frame.ack "a", Frame.other] (by decide)

/-! ## PingProtocol (lora_test.py, class LoRaPing)

One probe of `run_ping` (lora_test.py:335-375) ends in one of five
outcomes.  When the transmission itself fails, the code increments
`lost` but NOT `sent` (lines 373-375); only a successful `send_packet`
increments `sent`, after which a valid matching PONG increments
`received` and every other reply shape increments `lost`. -/

inductive ProbeOutcome where
  | sendFail
  | validReply
  | invalidReply
  | malformedReply
  | noReply
deriving DecidableEq, Repr

structure PingStats where
  sent : Nat
  received : Nat
  lost : Nat
deriving DecidableEq, Repr

/-- Effect of one probe iteration on the counters. -/
def pingStep (s : PingStats) : ProbeOutcome → PingStats
  | .sendFail => ⟨s.sent, s.received, s.lost + 1⟩
  | .validReply => ⟨s.sent + 1, s.received + 1, s.lost⟩
  | .invalidReply => ⟨s.sent + 1, s.received, s.lost + 1⟩
  | .malformedReply => ⟨s.sent + 1, s.received, s.lost + 1⟩
  | .noReply => ⟨s.sent + 1, s.received, s.lost + 1⟩

/-- `run_ping` counter state after a whole session (stats are reset at
session start by `reset_stats`). -/
def run_ping (outcomes : List ProbeOutcome) : PingStats :=
  outcomes.foldl pingStep ⟨0, 0, 0⟩

/-- `print_statistics` (lora_test.py:438-442): the printed loss
percentage is `lost / sent * 100`. -/
def lossPercent (s : PingStats) : ℚ :=
  (s.lost : ℚ) / (s.sent : ℚ) * 100

/-- C3 as stated is false: a probe whose transmission fails increments
`lost` without incrementing `sent`, so after a single failed
transmission the statistics read sent = 0, received = 0, lost = 1 and
sent ≠ received + lost. -/
theorem run_ping_counterexample :
    run_ping [ProbeOutcome.sendFail] = ⟨0, 0, 1⟩ ∧
    (run_ping [ProbeOutcome.sendFail]).sent ≠
      (run_ping [ProbeOutcome.sendFail]).received +
        (run_ping [ProbeOutcome.sendFail]).lost := by
  constructor
  · rfl
  · decide

theorem run_ping_conservation_aux (outcomes : List ProbeOutcome)
    (s : PingStats) (hs : s.sent = s.received + s.lost)
    (h : ∀ o ∈ outcomes, o ≠ ProbeOutcome.sendFail) :
    (outcomes.foldl pingStep s).sent =
      (outcomes.foldl pingStep s).received +
        (outcomes.foldl pingStep s).lost := by
  induction outcomes generalizing s with
  | nil => exact hs
  | cons o t ih =>
    have ho := h o (List.mem_cons_self o t)
    have h' := fun x hx => h x (List.mem_cons_of_mem o hx)
    cases o with
    | sendFail => exact absurd rfl ho
    | validReply => exact ih ⟨s.sent + 1, s.received + 1, s.lost⟩ (by simp [hs]; omega) h'
    | invalidReply => exact ih ⟨s.sent + 1, s.received, s.lost + 1⟩ (by simp [hs]; omega) h'
    | malformedReply => exact ih ⟨s.sent + 1, s.received, s.lost + 1⟩ (by simp [hs]; omega) h'
    | noReply => exact ih ⟨s.sent + 1, s.received, s.lost + 1⟩ (by simp [hs]; omega) h'

/-- C3 amended: for every ping session in which every probe's
transmission succeeds, the final statistics satisfy
sent = received + lost, and whenever sent > 0 the printed loss
percentage `lost/sent*100` also equals `(sent - received)/sent * 100`. -/
theorem run_ping_conservation (outcomes : List ProbeOutcome)
    (h : ∀ o ∈ outcomes, o ≠ ProbeOutcome.sendFail) :
    (run_ping outcomes).sent =
      (run_ping outcomes).received + (run_ping outcomes).lost ∧
    (0 < (run_ping outcomes).sent →
      lossPercent (run_ping outcomes) =
        (((run_ping outcomes).sent : ℚ) - (run_ping outcomes).received) /
          ((run_ping outcomes).sent : ℚ) * 100) := by
  have hc := run_ping_conservation_aux outcomes ⟨0, 0, 0⟩ rfl h
  refine ⟨hc, fun _ => ?_⟩
  unfold lossPercent
  congr 1
  congr 1
  rw [show ((run_ping outcomes).sent : ℚ) =
      ((run_ping outcomes).received + (run_ping outcomes).lost : ℚ) by
    exact_mod_cast congrArg (Nat.cast : Nat → ℚ) hc]
  ring

/-- Witness for C3 amended: one answered probe, one timed-out probe. -/
theorem run_ping_conservation_witness :
    (run_ping [ProbeOutcome.validReply, ProbeOutcome.noReply]).sent =
      (run_ping [ProbeOutcome.validReply, ProbeOutcome.noReply]).received +
        (run_ping [ProbeOutcome.validReply, ProbeOutcome.noReply]).lost :=
  (run_ping_conservation [ProbeOutcome.validReply, ProbeOutcome.noReply]
    (by decide)).1

/-! ## Line-mode send (pi_responder.py `lora_send`,
laptop_controller.py `api_lora_send` — identical logic)

The handler hex-encodes the message, issues `radio tx`, reads the
module's immediate response line, then after a one-second wait reads a
follow-up line; it reports success when the lowercased immediate
response contains "ok" OR the lowercased follow-up contains
"radio_tx_ok". -/

def lowerStr (s : List Char) : List Char := s.map Char.toLower

/-- Python's `needle in hay` on strings. -/
def strContains (needle : List Char) : List Char → Bool
  | [] => needle.isEmpty
  | c :: t => needle.isPrefixOf (c :: t) || strContains needle t

def hexDigitChar (n : Nat) : Char :=
  if n < 10 then Char.ofNat (48 + n) else Char.ofNat (87 + n)

/-- `message.encode().hex()`: two lowercase hex digits per byte. -/
def hexEncode (bs : List Nat) : List Char :=
  (bs.map fun b => [hexDigitChar (b / 16 % 16), hexDigitChar (b % 16)]).flatten

def okToken : List Char := "ok".data

def radioTxOkToken : List Char := "radio_tx_ok".data

structure LoraSendResult where
  success : Bool
  sent : List Nat
  hex : List Char
  response : List Char
  confirmation : List Char
deriving DecidableEq, Repr

/-- `api_lora_send` (laptop_controller.py:834-857) = `lora_send`
(pi_responder.py:203-229): `result` is the immediate response read after
the `radio tx` command, `extra` the follow-up line read one second
later; `success = 'ok' in (result or '').lower() or 'radio_tx_ok' in
extra.lower()`.  No exception escapes: the handler always returns a
result record. -/
def api_lora_send (message : List Nat) (result extra : List Char) :
    LoraSendResult :=
  ⟨strContains okToken (lowerStr result) ||
     strContains radioTxOkToken (lowerStr extra),
   message, hexEncode message, result, extra⟩

/-- C5 as stated is false: the code reports success on the immediate
"ok" acknowledgement alone, even when no "radio_tx_ok" transmit-complete
token is ever read (the two conditions are joined by OR, not AND). -/
theorem api_lora_send_counterexample :
    (api_lora_send [72, 73] "ok".data []).success = true ∧
    strContains radioTxOkToken (lowerStr []) = false := by
  constructor
  · decide
  · decide

/-- C5 amended: the send handler reports success if and only if the
lowercased immediate response contains "ok" or the lowercased follow-up
line contains "radio_tx_ok"; absence of both tokens yields a failure
result, not an exception. -/
theorem api_lora_send_success_iff (message : List Nat)
    (result extra : List Char) :
    (api_lora_send message result extra).success = true ↔
      (strContains okToken (lowerStr result) = true ∨
       strContains radioTxOkToken (lowerStr extra) = true) := by
  simp [api_lora_send]

/-! ## Register-mode packet write (lora_test.py `LoRaNode.send_packet`)

`payload = payload[:255]` (line 153) truncates the byte list to the
255-byte maximum LoRa frame before `write_payload`. -/

/-- The byte sequence handed to `write_payload`. -/
def send_packet_written (data : List Nat) : List Nat := data.take 255

/-- C6 as stated is false: for a 256-byte payload the bytes written to
the radio are not the whole payload — the 256th byte is silently
discarded by the `[:255]` bound. -/
theorem send_packet_counterexample :
    send_packet_written (List.replicate 256 0) ≠ List.replicate 256 0 := by
  intro h
  have hlen := congrArg List.length h
  rw [send_packet_written, List.length_take] at hlen
  rw [min_def] at hlen
  norm_num at hlen

/-- C6 amended: the written frame never exceeds 255 bytes, and whenever
the payload is within the 255-byte single-frame limit it is written
exactly, with no payload bytes discarded. -/
theorem send_packet_bounded (data : List Nat) :
    (send_packet_written data).length ≤ 255 ∧
    (data.length ≤ 255 → send_packet_written data = data) := by
  constructor
  · simp [send_packet_written]
  · intro h
    exact List.take_of_length_le h

/-- Witness for C6 amended at a ten-byte payload. -/
theorem send_packet_bounded_witness :
    send_packet_written (List.replicate 10 7) = List.replicate 10 7 :=
  (send_packet_bounded (List.replicate 10 7)).2 (by simp)

/-! ## SpectrumScanner (lora_test.py `spectrum_scan`, lines 625-667)

The sweep is `freq = start; while freq <= end: sample; freq += step`,
where `freq`, `end` and `step` are Python floats (binary64).  The
increment `freq += step` is a rounded float addition: a positive step
smaller than half an ulp of `freq` is absorbed and leaves `freq`
unchanged (for instance `902.0 + 1e-20 == 902.0`, since the ulp of
902.0 is about 1.1e-13), so whether the loop advances at all depends on
IEEE-754 rounding, not only on the sign of the step.  The loop is
therefore embedded with the accumulator update abstracted as an
arbitrary function `advance : ℚ → ℚ`, and the theorems quantify over
every possible update.  `advance` is instantiated concretely only where
the float addition is exact: for step = 0, binary64 gives
`freq + 0.0 == freq` for every frequency, so the update is exactly
`fun f => f + 0`.  The per-frequency RSSI reading (`get_rssi_value`
after retune and settle) is a function `rssi : ℚ → ℤ`. -/

def sweepAux (rssi : ℚ → ℤ) (endF : ℚ) (advance : ℚ → ℚ) :
    Nat → ℚ → List (ℚ × ℤ)
  | 0, _ => []
  | fuel + 1, f =>
      if f ≤ endF then
        (f, rssi f) :: sweepAux rssi endF advance fuel (advance f)
      else []

/-- The `while freq <= end` loop exits after finitely many iterations:
some iterate of the accumulator update passes the end frequency. -/
def sweepExits (start endF : ℚ) (advance : ℚ → ℚ) : Prop :=
  ∃ n : Nat, endF < advance^[n] start

/-- C9 as stated is false: with step = 0 — accepted by the CLI, whose
`--step` argument is an unvalidated float — the increment is the exact
float addition of zero, the accumulator never changes, the guard
`freq <= end` stays true, and the sweep never terminates: every
iteration budget is exhausted resampling the start frequency. -/
theorem spectrum_scan_counterexample :
    (¬ sweepExits 902 928 fun f => f + 0) ∧
    sweepAux (fun _ => -100) 928 (fun f => f + 0) 3 902 =
      [(902, -100), (902, -100), (902, -100)] := by
  constructor
  · rintro ⟨n, h⟩
    rw [Function.iterate_fixed (by norm_num)] at h
    exact absurd h (by norm_num)
  · norm_num [sweepAux]

theorem sweepAux_eq (rssi : ℚ → ℤ) (endF : ℚ) (advance : ℚ → ℚ)
    (n : Nat) :
    ∀ (s : ℚ) (fuel : Nat),
      (∀ i : Nat, i < n → advance^[i] s ≤ endF) →
      endF < advance^[n] s → n ≤ fuel →
      sweepAux rssi endF advance fuel s =
        (List.range n).map fun i : Nat =>
          (advance^[i] s, rssi (advance^[i] s)) := by
  induction n with
  | zero =>
    intro s fuel _ hgt _
    rw [Function.iterate_zero_apply] at hgt
    have hs : ¬(s ≤ endF) := not_le.mpr hgt
    cases fuel with
    | zero => rfl
    | succ fuel => rw [sweepAux, if_neg hs]; rfl
  | succ n ih =>
    intro s fuel hle hgt hfuel
    have hs : s ≤ endF := by
      have h0 := hle 0 (Nat.succ_pos n)
      rwa [Function.iterate_zero_apply] at h0
    cases fuel with
    | zero => omega
    | succ fuel =>
      rw [sweepAux, if_pos hs]
      rw [ih (advance s) fuel
        (fun i hi => by
          have h' := hle (i + 1) (Nat.succ_lt_succ hi)
          rwa [Function.iterate_succ_apply] at h')
        (by rwa [Function.iterate_succ_apply] at hgt)
        (Nat.le_of_succ_le_succ hfuel)]
      rw [List.range_succ_eq_map, List.map_cons, List.map_map]
      refine congrArg₂ List.cons (by rw [Function.iterate_zero_apply])
        (List.map_congr_left fun i _ => ?_)
      simp only [Function.comp]
      rw [Function.iterate_succ_apply]

theorem sweepAux_no_exit (rssi : ℚ → ℤ) (endF : ℚ) (advance : ℚ → ℚ) :
    ∀ (fuel : Nat) (s : ℚ), (∀ n : Nat, advance^[n] s ≤ endF) →
      (sweepAux rssi endF advance fuel s).length = fuel := by
  intro fuel
  induction fuel with
  | zero => intro s _; rfl
  | succ fuel ih =>
    intro s h
    have hs : s ≤ endF := by
      have h0 := h 0
      rwa [Function.iterate_zero_apply] at h0
    rw [sweepAux, if_pos hs]
    simp only [List.length_cons]
    rw [ih (advance s) fun n => by
      have hn := h (n + 1)
      rwa [Function.iterate_succ_apply] at hn]

/-- C9 amended: for every start, end, and accumulator update (the
rounded float addition of the step, kept abstract because IEEE-754
rounding decides whether it advances), the sweep visits the successive
accumulator values in order and stops at the first one exceeding end:
when some iterate of the update passes end, the loop terminates after
exactly the least such number of samples, each visited frequency being
at most end; when no iterate passes end — as for step = 0, and equally
for any positive step absorbed by float rounding — the loop never
exits: every iteration budget is consumed. -/
theorem spectrum_scan_loop (rssi : ℚ → ℤ) (s endF : ℚ)
    (advance : ℚ → ℚ) :
    (sweepExits s endF advance →
      ∃ n : Nat,
        (∀ fuel, n ≤ fuel →
          sweepAux rssi endF advance fuel s =
            (List.range n).map fun i : Nat =>
              (advance^[i] s, rssi (advance^[i] s))) ∧
        (∀ i : Nat, i < n → advance^[i] s ≤ endF) ∧
        endF < advance^[n] s) ∧
    (¬ sweepExits s endF advance →
      ∀ fuel, (sweepAux rssi endF advance fuel s).length = fuel) := by
  constructor
  · intro hex
    classical
    refine ⟨Nat.find hex, fun fuel hf => ?_, fun i hi => ?_,
      Nat.find_spec hex⟩
    · exact sweepAux_eq rssi endF advance (Nat.find hex) s fuel
        (fun i hi => le_of_not_lt (Nat.find_min hex hi))
        (Nat.find_spec hex) hf
    · exact le_of_not_lt (Nat.find_min hex hi)
  · intro hnot fuel
    refine sweepAux_no_exit rssi endF advance fuel s fun n => ?_
    by_contra hlt
    exact hnot ⟨n, lt_of_not_le hlt⟩

/-- Witness for C9 amended: an update that adds one, sweeping 0..2. -/
theorem spectrum_scan_loop_witness :
    ∃ n : Nat,
      (∀ fuel, n ≤ fuel →
        sweepAux (fun _ => (-80 : ℤ)) 2 (fun f => f + 1) fuel 0 =
          (List.range n).map fun i : Nat =>
            ((fun f : ℚ => f + 1)^[i] (0 : ℚ), (-80 : ℤ))) ∧
      (∀ i : Nat, i < n → (fun f : ℚ => f + 1)^[i] (0 : ℚ) ≤ 2) ∧
      (2 : ℚ) < (fun f : ℚ => f + 1)^[n] (0 : ℚ) :=
  (spectrum_scan_loop (fun _ => (-80 : ℤ)) 0 2 fun f => f + 1).1
    ⟨3, by
      have h3 : (fun f : ℚ => f + 1)^[3] (0 : ℚ) = 3 := by
        norm_num [Function.iterate_succ_apply', Function.iterate_zero_apply]
      rw [h3]
      norm_num⟩

end D2D
